import Mathlib

/-!
Verification of the Bus2Hike trail network builder and path finder
(`backend/app/find_trails.py`, `backend/scripts/build-trail-network.py`).

The Python/SQL code is shallowly embedded: database tables become lists,
SQL queries become list functions, rational numbers stand for the numeric
columns, and PostGIS geometric primitives that the claims do not inspect
(`ST_LineMerge`, `ST_LineSubstring`, bearing trigonometry, `pgr_dijkstra`)
are abstract function parameters.
-/

namespace Bus2Hike

/-- A planar coordinate pair (longitude/latitude degrees), as rationals. -/
abbrev Point := ℚ × ℚ

/-- A line geometry as an ordered coordinate list (`LINESTRING`). -/
abbrev Geom := List Point

/-- A row of the `trail_edges` table (the columns the finder reads). -/
structure TrailEdge where
  id : ℤ
  source_node_id : ℤ
  target_node_id : ℤ
  length_km : ℚ
  geometry : Geom
deriving DecidableEq

/-! ## Strategy (a): exhaustive enumeration (`TrailFinder.find_paths_from_node`)

The recursive CTE `trail_paths` carries six columns; one row of it is a
`PathState`.  The base case seeds the start node, the recursive step joins
`trail_edges` on either endpoint under the three `WHERE` guards. -/

/-- One row of the recursive CTE `trail_paths`. -/
structure PathState where
  path_edges : List ℤ
  path_directions : List Bool
  node_sequence : List ℤ
  last_node : ℤ
  total_cost : ℚ
  visited_edges : List ℤ
deriving DecidableEq

/-- Base case of the CTE: the zero-edge path at the start node, present
only when the start node exists in `trail_nodes`. -/
def initStates (trail_nodes : List ℤ) (start_node_id : ℤ) : List PathState :=
  (trail_nodes.filter (fun i => i == start_node_id)).map
    (fun i => ⟨[], [], [i], i, 0, []⟩)

/-- The far endpoint of `te` seen from `tp.last_node`
(the `CASE WHEN te.source_node_id = tp.last_node ...` expression). -/
def farNode (tp : PathState) (te : TrailEdge) : ℤ :=
  if te.source_node_id = tp.last_node then te.target_node_id else te.source_node_id

/-- The recursive step of the CTE for one candidate edge: the join
condition and the three `WHERE` guards, then the row constructed by the
recursive `SELECT`. -/
def edgeStep (max_distance : ℚ) (tp : PathState) (te : TrailEdge) :
    Option PathState :=
  if (te.source_node_id = tp.last_node ∨ te.target_node_id = tp.last_node)
      ∧ te.id ∉ tp.visited_edges
      ∧ tp.total_cost + te.length_km ≤ max_distance
      ∧ farNode tp te ∉ tp.node_sequence then
    some
      { path_edges := tp.path_edges ++ [te.id]
        path_directions :=
          tp.path_directions ++ [decide (te.source_node_id = tp.last_node)]
        node_sequence := tp.node_sequence ++ [farNode tp te]
        last_node := farNode tp te
        total_cost := tp.total_cost + te.length_km
        visited_edges := tp.visited_edges ++ [te.id] }
  else none

/-- One round of the recursive CTE: every row of the previous round joined
with every qualifying edge. -/
def expandStates (trail_edges : List TrailEdge) (max_distance : ℚ)
    (tps : List PathState) : List PathState :=
  tps.flatMap (fun tp => trail_edges.filterMap (edgeStep max_distance tp))

/-- The `n`-th round of the recursive CTE. -/
def cteLevel (trail_nodes : List ℤ) (trail_edges : List TrailEdge)
    (start_node_id : ℤ) (max_distance : ℚ) : ℕ → List PathState
  | 0 => initStates trail_nodes start_node_id
  | n + 1 =>
      expandStates trail_edges max_distance
        (cteLevel trail_nodes trail_edges start_node_id max_distance n)

/-- All rows the recursive CTE produces in rounds `0..fuel`.  Every round
adds a fresh edge id, so `fuel = trail_edges.length` exhausts the CTE. -/
def cteStates (trail_nodes : List ℤ) (trail_edges : List TrailEdge)
    (start_node_id : ℤ) (max_distance : ℚ) (fuel : ℕ) : List PathState :=
  (List.range (fuel + 1)).flatMap
    (cteLevel trail_nodes trail_edges start_node_id max_distance)

/-- `ORDER BY total_cost DESC`: later cost less than or equal to earlier. -/
def costGE (a b : PathState) : Prop := b.total_cost ≤ a.total_cost

instance : DecidableRel costGE := fun a b =>
  inferInstanceAs (Decidable (b.total_cost ≤ a.total_cost))

instance : IsTotal PathState costGE := ⟨fun a b => le_total b.total_cost a.total_cost⟩

instance : IsTrans PathState costGE := ⟨fun _ _ _ h₁ h₂ => le_trans h₂ h₁⟩

/-- Python truthiness of the `max_paths` argument
(`limit_clause = f"LIMIT {max_paths}" if max_paths else ""`):
`None` and `0` are falsy, so produce no `LIMIT` clause. -/
def limitTruthy : Option ℕ → Bool
  | none => false
  | some k => k != 0

/-- `TrailFinder.find_paths_from_node`: run the recursive CTE, keep rows
with at least one edge, order by total cost descending, and apply the
`LIMIT` clause exactly when `max_paths` is truthy. -/
def findPathsFromNode (trail_nodes : List ℤ) (trail_edges : List TrailEdge)
    (start_node_id : ℤ) (max_distance : ℚ) (max_paths : Option ℕ) :
    List PathState :=
  let valid :=
    (cteStates trail_nodes trail_edges start_node_id max_distance
        trail_edges.length).filter (fun tp => !tp.path_edges.isEmpty)
  let sorted := List.insertionSort costGE valid
  match max_paths with
  | none => sorted
  | some k => if k != 0 then sorted.take k else sorted

/-! ## Strategy (b): diversity-sampled shortest paths
(`TrailFinder.find_paths_from_node_optimized` and `TrailFinder._format_path`)

`pgr_dijkstra` is an external extension; its result set is a parameter
`route : ℤ → List PgrRow` mapping a target node id to the rows returned
for that target.  The compass-bearing computation uses `sin/cos/atan2`,
so the bearing of a candidate is likewise a parameter `bearingOf`, known
(from the `(math.degrees(bearing) + 360) % 360` normalisation) to land in
`[0, 360)`. -/

/-- One row of a `pgr_dijkstra` result (`node`, `edge`, `agg_cost`). -/
structure PgrRow where
  node : ℤ
  edge : ℤ
  agg_cost : ℚ
deriving DecidableEq

/-- The dictionary/path format produced by `_format_path` and consumed by
the geometry assembler. -/
structure PathRec where
  path_edges : List ℤ
  path_directions : List Bool
  node_sequence : List ℤ
  total_cost : ℚ
deriving DecidableEq

/-- `edge_sources` lookup: `SELECT id, source_node_id FROM trail_edges
WHERE id = ANY(edge_ids)` built into a dictionary. -/
def edgeSource (trail_edges : List TrailEdge) (eid : ℤ) : Option ℤ :=
  (trail_edges.find? (fun e => e.id == eid)).map (·.source_node_id)

/-- `TrailFinder._format_path`.  `none` models the falsy `{}` returned for
an empty `pgr_dijkstra` result; a zero-edge result still yields a (truthy)
record, exactly as in the source.  The source indexes `path_edges[i]` for
`i < len(node_sequence) - 1`; `getD _ 0` totalises that access (it is
in range for every well-formed `pgr_dijkstra` output). -/
def formatPath (trail_edges : List TrailEdge) (pgr_path : List PgrRow) :
    Option PathRec :=
  if pgr_path.isEmpty then none
  else
    let node_sequence := pgr_path.map (·.node)
    let path_edges := (pgr_path.filter (fun p => p.edge != -1)).map (·.edge)
    if path_edges.isEmpty then some ⟨[], [], node_sequence, 0⟩
    else
      let total_cost := (pgr_path.getLastD ⟨0, 0, 0⟩).agg_cost
      let path_directions :=
        (List.range (node_sequence.length - 1)).map (fun i =>
          match edgeSource trail_edges (path_edges.getD i 0) with
          | some s => decide (s = node_sequence.getD i 0)
          | none => false)
      some ⟨path_edges, path_directions, node_sequence, total_cost⟩

/-- A candidate target row: `id, ST_X(geometry) as lon, ST_Y(geometry) as lat`. -/
structure NodePt where
  id : ℤ
  lon : ℚ
  lat : ℚ
deriving DecidableEq

/-- `int(bearing / (360 / num_bins))`: the angular bin of a bearing
(floor equals Python `int` truncation since bearings are non-negative). -/
def binIndex (num_bins : ℕ) (bearing : ℚ) : ℤ :=
  ⌊bearing / (360 / (num_bins : ℚ))⌋

/-- The per-bin candidate lists: appending each candidate, in input order,
to the bin its bearing falls in. -/
def binsFor (num_bins : ℕ) (bearingOf : NodePt → ℚ) (cands : List NodePt) :
    List (List NodePt) :=
  (List.range num_bins).map (fun b : ℕ =>
    cands.filter (fun c => binIndex num_bins (bearingOf c) == (b : ℤ)))

/-- Squared planar coordinate distance used by the farthest-in-bin pick
(`(n['lat'] - start['lat'])**2 + (n['lon'] - start['lon'])**2`). -/
def sqDist (s n : NodePt) : ℚ := (n.lat - s.lat) ^ 2 + (n.lon - s.lon) ^ 2

/-- Python `max(xs, key=key)`: first element of maximal key. -/
def pyMax (key : NodePt → ℚ) : List NodePt → Option NodePt
  | [] => none
  | x :: xs => some (xs.foldl (fun acc n => if key acc < key n then n else acc) x)

/-- Target selection: one farthest candidate from every non-empty bin. -/
def selectedTargets (num_bins : ℕ) (start_geom : NodePt)
    (bearingOf : NodePt → ℚ) (cands : List NodePt) : List NodePt :=
  (binsFor num_bins bearingOf cands).filterMap (pyMax (sqDist start_geom))

/-- The dijkstra loop of `find_paths_from_node_optimized`: format and
collect each target's path (an empty `pgr_dijkstra` result is skipped),
breaking as soon as `max_paths` paths have been accumulated. -/
def collectPaths (trail_edges : List TrailEdge) (route : ℤ → List PgrRow)
    (max_paths : ℕ) : List NodePt → List PathRec → List PathRec
  | [], acc => acc
  | t :: ts, acc =>
      let acc' :=
        if (route t.id).isEmpty then acc
        else
          match formatPath trail_edges (route t.id) with
          | some fp => acc ++ [fp]
          | none => acc
      if max_paths ≤ acc'.length then acc'
      else collectPaths trail_edges route max_paths ts acc'

/-- `TrailFinder.find_paths_from_node_optimized`: angular binning over the
candidate targets, farthest-per-bin selection, then shortest paths until
`max_paths` are collected. -/
def findPathsFromNodeOptimized (trail_edges : List TrailEdge)
    (start_geom : NodePt) (cands : List NodePt) (bearingOf : NodePt → ℚ)
    (route : ℤ → List PgrRow) (max_paths : ℕ) : List PathRec :=
  if cands.isEmpty then []
  else
    collectPaths trail_edges route max_paths
      (selectedTargets (max 8 max_paths) start_geom bearingOf cands) []

/-! ## Geometry assembler & truncator
(`TrailFinder._truncate_path_geometry`, `TrailFinder.build_geojson_from_paths`)

`ST_LineMerge(ST_Collect(...))` and `ST_LineSubstring` are PostGIS
primitives, passed as parameters `lineMerge` (returning `none` for a
`NULL` merged geometry, which the source maps to `([], 0.0)`) and
`lineSub g a b`.  `ST_Reverse` on a linestring is coordinate-list
reversal. -/

/-- The `ordered_geoms` CTE: each path edge's geometry in traversal
order, reversed when walked target→source. -/
def orientedGeoms (trail_edges : List TrailEdge) (eids : List ℤ)
    (dirs : List Bool) : List Geom :=
  (List.zip eids dirs).filterMap (fun p =>
    (trail_edges.find? (fun e => e.id == p.1)).map
      (fun e => if p.2 then e.geometry else e.geometry.reverse))

/-- `TrailFinder._truncate_path_geometry`: merge the oriented edge
geometries into one line; when the path's total cost exceeds `max_dist`,
take the fractional line prefix `max_dist / total_length` and report
`max_dist`, otherwise keep the full line and report the total cost. -/
def truncatePathGeometry (lineMerge : List Geom → Option Geom)
    (lineSub : Geom → ℚ → ℚ → Geom) (trail_edges : List TrailEdge)
    (path : PathRec) (max_dist : ℚ) : Geom × ℚ :=
  if path.path_edges.isEmpty then ([], 0)
  else
    let total_length := path.total_cost
    match lineMerge
        (orientedGeoms trail_edges path.path_edges path.path_directions) with
    | none => ([], 0)
    | some merged =>
        if max_dist < total_length then
          (lineSub merged 0 (max_dist / total_length), max_dist)
        else (merged, total_length)

/-- `float(round(x, 2))`: two-decimal rounding. -/
def round2 (q : ℚ) : ℚ := (round (q * 100) : ℤ) / 100

/-- One GeoJSON `Feature` of the output collection. -/
structure Feature where
  path_id : ℕ
  total_distance_km : ℚ
  edge_ids : List ℤ
  node_sequence : List ℤ
  coordinates : Geom
deriving DecidableEq

/-- The GeoJSON `FeatureCollection` output value. -/
structure FeatureColl where
  type : String
  features : List Feature
deriving DecidableEq

/-- The body of the `for i, path in enumerate(paths)` loop: `none` when
the path is skipped (no edges, or fewer than two output coordinates). -/
def featureOfPath (lineMerge : List Geom → Option Geom)
    (lineSub : Geom → ℚ → ℚ → Geom) (trail_edges : List TrailEdge)
    (max_distance_cut : Option ℚ) (i : ℕ) (path : PathRec) : Option Feature :=
  if path.path_edges.isEmpty then none
  else
    let total_path_distance := path.total_cost
    let needs_truncation : Bool :=
      match max_distance_cut with
      | none => false
      | some c => decide (c < total_path_distance)
    let fin :=
      if needs_truncation then
        truncatePathGeometry lineMerge lineSub trail_edges path
          (max_distance_cut.getD 0)
      else
        truncatePathGeometry lineMerge lineSub trail_edges path
          (total_path_distance + 1)
    if fin.1.length < 2 then none
    else
      some ⟨i, round2 fin.2, path.path_edges, path.node_sequence, fin.1⟩

/-- `TrailFinder.build_geojson_from_paths`. -/
def buildGeojsonFromPaths (lineMerge : List Geom → Option Geom)
    (lineSub : Geom → ℚ → ℚ → Geom) (trail_edges : List TrailEdge)
    (paths : List PathRec) (max_distance_cut : Option ℚ) : FeatureColl :=
  if paths.isEmpty then ⟨"FeatureCollection", []⟩
  else
    ⟨"FeatureCollection",
      paths.enum.filterMap (fun ip =>
        featureOfPath lineMerge lineSub trail_edges max_distance_cut
          ip.1 ip.2)⟩

/-! ## The request-level driver (`find_trails`)

The whole body runs under one `try/except` whose handler calls
`sys.exit(1)`; that exit is the `Except.error ()` value.  The per-node
search (`find_paths_from_node_optimized` together with its storage
accesses) is a parameter `search : node id → quota → Except String _`
so that a storage fault while processing one start node can be
injected. -/

/-- The `for node_id in start_nodes` accumulation loop, including the
`all_paths = all_paths[:max_paths]; break` early stop.  A failing search
raises, i.e. propagates as `Except.error`. -/
def runSearches (search : ℤ → ℕ → Except String (List PathRec))
    (max_paths per_node : ℕ) : List ℤ → List PathRec →
    Except String (List PathRec)
  | [], acc => .ok acc
  | n :: ns, acc =>
      match search n per_node with
      | .error e => .error e
      | .ok paths =>
          let acc' := acc ++ paths
          if max_paths ≤ acc'.length then .ok (acc'.take max_paths)
          else runSearches search max_paths per_node ns acc'

/-- `find_trails`: empty locator result yields the empty
`FeatureCollection`; otherwise the per-node quota is
`max(1, max_paths // len(start_nodes))`, results accumulate across start
nodes with the global early stop, and any exception reaches the outer
handler, which exits (`Except.error ()`). -/
def findTrails (lineMerge : List Geom → Option Geom)
    (lineSub : Geom → ℚ → ℚ → Geom) (trail_edges : List TrailEdge)
    (start_nodes : List ℤ) (search : ℤ → ℕ → Except String (List PathRec))
    (max_distance : ℚ) (max_paths : ℕ) : Except Unit FeatureColl :=
  if start_nodes.isEmpty then .ok ⟨"FeatureCollection", []⟩
  else
    -- max_paths_per_node = max(1, max_paths // len(start_nodes))
    match runSearches search max_paths
        (max 1 (max_paths / start_nodes.length)) start_nodes [] with
    | .error _ => .error ()
    | .ok all_paths =>
        .ok (buildGeojsonFromPaths lineMerge lineSub trail_edges all_paths
          (some max_distance))

/-! ## Network builder (`backend/scripts/build-trail-network.py`)

### Node clustering (`extract_and_insert_nodes`)

A cluster produced by `ST_ClusterDBSCAN` is a list of raw node points;
the inserted node takes the coordinate averages and `MIN(node_type)`
(SQL `MIN` on `VARCHAR` is lexicographic). -/

/-- A `VARCHAR` value as its character sequence (SQL `MIN` on `VARCHAR`
compares lexicographically, which is the `List Char` order). -/
abbrev VarChar := List Char

/-- A row of `temp_raw_nodes`. -/
structure RawNode where
  x : ℚ
  y : ℚ
  node_type : VarChar
  elevation_m : ℚ
deriving DecidableEq

/-- A row of `trail_nodes`. -/
structure TrailNode where
  id : ℤ
  geom : Point
  node_type : VarChar
  elevation_m : ℚ
deriving DecidableEq

/-- SQL `AVG` over a non-empty column. -/
def sqlAvg (qs : List ℚ) : ℚ := qs.sum / (qs.length : ℚ)

/-- SQL `MIN` over a `VARCHAR` column: lexicographically least value. -/
def sqlMinVarchar : List VarChar → Option VarChar
  | [] => none
  | s :: ss => some (ss.foldl (fun acc x => if x < acc then x else acc) s)

/-- The `INSERT INTO trail_nodes ... GROUP BY cluster_id` select list for
one cluster: centroid position, `MIN(node_type)`, average elevation. -/
def clusterToNode (id : ℤ) (cluster : List RawNode) : Option TrailNode :=
  match sqlMinVarchar (cluster.map (·.node_type)) with
  | none => none
  | some t =>
      some ⟨id, (sqlAvg (cluster.map (·.x)), sqlAvg (cluster.map (·.y))), t,
        sqlAvg (cluster.map (·.elevation_m))⟩

/-! ### Edge creation (`create_edges_from_trails`)

A split segment of a raw trail carries its true endpoints; endpoint nodes
are resolved by nearest-node lookup (`ORDER BY geometry <-> point LIMIT
1`), guarded by the `10 × snap_tolerance` proximity checks and the
self-loop check, then deduplicated per `(source, target)` pair keeping
the longest segment (`ROW_NUMBER ... ORDER BY length_km DESC`, `rn = 1`).
Distances compare via squared Euclidean distance, order-equivalent to
`ST_Distance` against the squared threshold. -/

/-- A row of `temp_trail_segments` (the columns the edge insert reads). -/
structure Segment where
  trail_id : ℤ
  start_pt : Point
  end_pt : Point
  length_km : ℚ
deriving DecidableEq

/-- Squared planar distance between two points. -/
def sqDistPt (p q : Point) : ℚ := (p.1 - q.1) ^ 2 + (p.2 - q.2) ^ 2

/-- `SELECT id FROM trail_nodes ORDER BY geometry <-> pt LIMIT 1`:
a node at minimal distance from `pt` (first such in table order). -/
def nearestNode (trail_nodes : List TrailNode) (pt : Point) :
    Option TrailNode :=
  match trail_nodes with
  | [] => none
  | n :: ns =>
      some (ns.foldl
        (fun acc m => if sqDistPt m.geom pt < sqDistPt acc.geom pt then m
          else acc) n)

/-- A row of the `potential_edges` CTE (with its originating segment). -/
structure PotEdge where
  source_node_id : ℤ
  target_node_id : ℤ
  seg : Segment
deriving DecidableEq

/-- The `potential_edges` CTE: resolve both endpoints, reject self-loops
and endpoints resolved farther than `10 × snap_tolerance` away. -/
def potentialEdges (snap_tolerance : ℚ) (trail_nodes : List TrailNode)
    (segs : List Segment) : List PotEdge :=
  segs.filterMap (fun s =>
    match nearestNode trail_nodes s.start_pt, nearestNode trail_nodes s.end_pt with
    | some src, some tgt =>
        if src.id ≠ tgt.id
            ∧ sqDistPt src.geom s.start_pt < (10 * snap_tolerance) ^ 2
            ∧ sqDistPt tgt.geom s.end_pt < (10 * snap_tolerance) ^ 2 then
          some ⟨src.id, tgt.id, s⟩
        else none
    | _, _ => none)

/-- The `(source, target)` partition key of a potential edge. -/
def edgeKey (e : PotEdge) : ℤ × ℤ := (e.source_node_id, e.target_node_id)

/-- The `rn = 1` representative of one `(source, target)` partition:
a longest potential edge of that pair (first such, mirroring
`ORDER BY length_km DESC`). -/
def longestForPair (es : List PotEdge) (p : ℤ × ℤ) : Option PotEdge :=
  match es.filter (fun e => edgeKey e == p) with
  | [] => none
  | x :: xs =>
      some (xs.foldl
        (fun acc e => if acc.seg.length_km < e.seg.length_km then e else acc) x)

/-- The rows inserted into `trail_edges`: one longest potential edge per
distinct `(source, target)` pair. -/
def insertedEdges (snap_tolerance : ℚ) (trail_nodes : List TrailNode)
    (segs : List Segment) : List PotEdge :=
  let pe := potentialEdges snap_tolerance trail_nodes segs
  ((pe.map edgeKey).dedup).filterMap (longestForPair pe)

/-! ### The build transaction (`build_network`)

Connection semantics: the committed table state and the pending
(in-transaction) view; `commit` publishes the pending view, `rollback`
discards it.  `create_network_tables`, `extract_and_insert_nodes` and
`create_edges_from_trails` each commit on success; the `except` handler
rolls back and re-raises.  A failure is injected before the commit of
the given 1-based step; the result is the committed table state after
the run (the extracted node and edge contents are parameters, computed
by the clustering and splitting steps above). -/

/-- The contents of the two network tables. -/
structure TablesState where
  trail_nodes : List TrailNode
  trail_edges : List PotEdge
deriving DecidableEq

/-- A database connection: the committed table state and the pending
in-transaction view. -/
structure Conn where
  committed : TablesState
  pending : TablesState
deriving DecidableEq

/-- `connection.commit()`: publish the pending view. -/
def dbCommit (c : Conn) : Conn := ⟨c.pending, c.pending⟩

/-- `connection.rollback()`: discard the pending view. -/
def dbRollback (c : Conn) : Conn := ⟨c.committed, c.committed⟩

/-- `build_network` with a failure injected during step `failStep`
(`1` = `create_network_tables`, `2` = `extract_and_insert_nodes`,
`3` = `create_edges_from_trails`, `4` = `create_indexes_and_constraints`,
`5` = `analyze_network`; `none` = no failure).  A failing step's own
writes are still pending, so the handler's rollback discards them; each
completed step ends in `connection.commit()` (step 5 commits nothing and
writes nothing).  The result is the committed state of the node and edge
tables when the run ends. -/
def buildNetwork (init : TablesState) (computed_nodes : List TrailNode)
    (computed_edges : List PotEdge) (failStep : Option ℕ) : TablesState :=
  let c0 : Conn := ⟨init, init⟩
  -- step 1: DROP TABLE + CREATE TABLE for both tables, then commit
  if failStep = some 1 then (dbRollback c0).committed
  else
    let c1 := dbCommit { c0 with pending := ⟨[], []⟩ }
    -- step 2: INSERT INTO trail_nodes, then commit
    if failStep = some 2 then (dbRollback c1).committed
    else
      let c2 := dbCommit
        { c1 with pending := ⟨computed_nodes, c1.pending.trail_edges⟩ }
      -- step 3: INSERT INTO trail_edges, then commit
      if failStep = some 3 then (dbRollback c2).committed
      else
        let c3 := dbCommit
          { c2 with pending := ⟨c2.pending.trail_nodes, computed_edges⟩ }
        -- step 4: CREATE INDEX only (no table contents change), then commit
        if failStep = some 4 then (dbRollback c3).committed
        else
          let c4 := dbCommit c3
          -- step 5: SELECT-only analysis
          if failStep = some 5 then (dbRollback c4).committed
          else c4.committed

/-! ## Theorems -/

/-- C10: when the Start-Point Locator finds no start node, `find_trails`
returns exactly the GeoJSON value
`{"type": "FeatureCollection", "features": []}` as a valid (non-error)
result, for every configuration of the remaining collaborators. -/
theorem c10_no_start_nodes_empty_collection
    (lineMerge : List Geom → Option Geom) (lineSub : Geom → ℚ → ℚ → Geom)
    (trail_edges : List TrailEdge)
    (search : ℤ → ℕ → Except String (List PathRec))
    (max_distance : ℚ) (max_paths : ℕ) :
    findTrails lineMerge lineSub trail_edges [] search max_distance max_paths
      = .ok ⟨"FeatureCollection", []⟩ := rfl

/-- C2: the code is wrong on this point.  The clustering insert computes
the node type as `MIN(node_type)` with the comment "Prefer 'intersection'
over 'endpoint'", but SQL `MIN` on `VARCHAR` is lexicographic and
`"endpoint" < "intersection"`, so a cluster containing both member types
gets type `"endpoint"`, contradicting the code's own comment (and the
spec's tie-break). -/
theorem c2_cluster_type_bug :
    (clusterToNode 1 [⟨0, 0, "endpoint".toList, 0⟩,
          ⟨0, 0, "intersection".toList, 0⟩]).map TrailNode.node_type
        = some "endpoint".toList
      ∧ "endpoint".toList ≠ "intersection".toList := by
  exact ⟨by decide, by decide⟩

/-- C3 counterexample: the build is not all-or-nothing.  Starting from a
populated pair of tables, a failure injected during edge creation
(step 3) leaves the committed tables holding the freshly inserted nodes
and no edges — not the pre-build contents. -/
theorem c3_not_atomic_counterexample :
    buildNetwork
        ⟨[⟨1, (0, 0), "endpoint".toList, 0⟩],
          [⟨1, 2, ⟨5, (0, 0), (1, 1), 2⟩⟩]⟩
        [⟨2, (1, 1), "intersection".toList, 0⟩] [] (some 3)
        = ⟨[⟨2, (1, 1), "intersection".toList, 0⟩], []⟩
      ∧ buildNetwork
          ⟨[⟨1, (0, 0), "endpoint".toList, 0⟩],
            [⟨1, 2, ⟨5, (0, 0), (1, 1), 2⟩⟩]⟩
          [⟨2, (1, 1), "intersection".toList, 0⟩] [] (some 3)
          ≠ ⟨[⟨1, (0, 0), "endpoint".toList, 0⟩],
              [⟨1, 2, ⟨5, (0, 0), (1, 1), 2⟩⟩]⟩ := by
  exact ⟨by decide, by decide⟩

/-- C3 amended: the build commits after each of table creation, node
insertion and edge insertion, so an unhandled error rolls back only the
changes pending since the most recent commit: a failure during table
creation preserves the pre-build tables, a failure during node insertion
leaves freshly emptied tables, a failure during edge insertion leaves the
new nodes with no edges, and later failures (or none) leave the fully
rebuilt tables. -/
theorem c3_commit_per_step (init : TablesState)
    (computed_nodes : List TrailNode) (computed_edges : List PotEdge) :
    buildNetwork init computed_nodes computed_edges none
        = ⟨computed_nodes, computed_edges⟩
      ∧ buildNetwork init computed_nodes computed_edges (some 1) = init
      ∧ buildNetwork init computed_nodes computed_edges (some 2) = ⟨[], []⟩
      ∧ buildNetwork init computed_nodes computed_edges (some 3)
          = ⟨computed_nodes, []⟩
      ∧ buildNetwork init computed_nodes computed_edges (some 4)
          = ⟨computed_nodes, computed_edges⟩
      ∧ buildNetwork init computed_nodes computed_edges (some 5)
          = ⟨computed_nodes, computed_edges⟩ := by
  refine ⟨rfl, rfl, ?_, ?_, ?_, ?_⟩ <;>
    simp [buildNetwork, dbCommit, dbRollback]

/-- C4 counterexample: a search failure for one start node is not
isolated.  With two start nodes where the first search raises a storage
fault and the second would succeed with a path, `find_trails` aborts the
whole request (`sys.exit(1)`, the `Except.error ()` value) instead of
returning the second node's contribution. -/
theorem c4_failure_not_isolated :
    findTrails (fun _ => none) (fun g _ _ => g) [] [1, 2]
        (fun n _ => if n = 1 then .error "db fault"
          else .ok [⟨[7], [true], [2, 3], 1⟩])
        10 5 = .error ()
      ∧ (fun (n : ℤ) (_ : ℕ) =>
          if n = 1 then (.error "db fault" : Except String (List PathRec))
          else .ok [⟨[7], [true], [2, 3], 1⟩]) 2 2
          = .ok [⟨[7], [true], [2, 3], 1⟩] :=
  ⟨rfl, rfl⟩

/-- C4 amended: a storage/search failure while processing a start node
propagates to the request-level exception handler, which aborts the
entire request; in particular, when the first start node's search fails
the whole request returns the error exit and no remaining start node is
processed. -/
theorem c4_first_failure_aborts
    (lineMerge : List Geom → Option Geom) (lineSub : Geom → ℚ → ℚ → Geom)
    (trail_edges : List TrailEdge) (n : ℤ) (ns : List ℤ)
    (search : ℤ → ℕ → Except String (List PathRec))
    (max_distance : ℚ) (max_paths : ℕ) (e : String)
    (h : search n (max 1 (max_paths / (n :: ns).length)) = .error e) :
    findTrails lineMerge lineSub trail_edges (n :: ns) search max_distance
      max_paths = .error () := by
  have h' : search n (1 ⊔ max_paths / (ns.length + 1)) = .error e := by
    simpa using h
  simp [findTrails, runSearches, h']

/-- Witness for `c4_first_failure_aborts` at a concrete input. -/
theorem c4_first_failure_aborts_witness :
    (fun (_ : ℤ) (_ : ℕ) => (.error "db" : Except String (List PathRec))) 1
        (max 1 (5 / (([1] : List ℤ) ++ [2]).length)) = .error "db"
      ∧ findTrails (fun _ => none) (fun g _ _ => g) [] [1, 2]
          (fun _ _ => .error "db") 10 5 = .error () :=
  ⟨rfl,
    c4_first_failure_aborts (fun _ => none) (fun g _ _ => g) [] 1 [2]
      (fun _ _ => .error "db") 10 5 "db" rfl⟩

/-- The accumulation loop with an everywhere-successful search returns
the truncated concatenation of the per-node results, in iteration
order. -/
theorem runSearches_ok_eq_take
    (search : ℤ → ℕ → Except String (List PathRec))
    (f : ℤ → List PathRec) (m q : ℕ)
    (hs : ∀ n, search n q = .ok (f n)) :
    ∀ (ns : List ℤ) (acc : List PathRec), acc.length < m →
      runSearches search m q ns acc = .ok ((acc ++ ns.flatMap f).take m) := by
  intro ns
  induction ns with
  | nil =>
      intro acc hacc
      simp [runSearches, List.take_of_length_le (le_of_lt hacc)]
  | cons n ns ih =>
      intro acc hacc
      simp only [runSearches, hs n]
      by_cases h : m ≤ (acc ++ f n).length
      · rw [if_pos h, List.flatMap_cons, ← List.append_assoc,
          List.take_append_of_le_length h]
      · rw [if_neg h, ih (acc ++ f n) (Nat.lt_of_not_le h),
          List.flatMap_cons, ← List.append_assoc]

/-- The assembler never emits more features than it was given paths. -/
theorem buildGeojson_length_le (lineMerge : List Geom → Option Geom)
    (lineSub : Geom → ℚ → ℚ → Geom) (trail_edges : List TrailEdge)
    (paths : List PathRec) (max_distance_cut : Option ℚ) :
    (buildGeojsonFromPaths lineMerge lineSub trail_edges paths
      max_distance_cut).features.length ≤ paths.length := by
  unfold buildGeojsonFromPaths
  cases hps : paths.isEmpty
  · simp only [Bool.false_eq_true, if_false]
    calc (paths.enum.filterMap _).length
        ≤ paths.enum.length := List.length_filterMap_le _ _
      _ = paths.length := List.enum_length
  · simp

/-- C7: with every per-node search succeeding, `find_trails` passes each
start node the quota `max(1, max_paths // start_node_count)`, accumulates
the per-node results in locator-iteration order, truncates the
accumulation at `max_paths`, and the resulting FeatureCollection never
holds more than `max_paths` features. -/
theorem c7_aggregator_quota_and_cap
    (lineMerge : List Geom → Option Geom) (lineSub : Geom → ℚ → ℚ → Geom)
    (trail_edges : List TrailEdge) (start_nodes : List ℤ)
    (search : ℤ → ℕ → Except String (List PathRec))
    (f : ℤ → List PathRec) (max_distance : ℚ) (max_paths : ℕ)
    (hne : start_nodes ≠ []) (hm : 1 ≤ max_paths)
    (hs : ∀ nd, search nd (max 1 (max_paths / start_nodes.length))
      = .ok (f nd)) :
    findTrails lineMerge lineSub trail_edges start_nodes search max_distance
        max_paths
      = .ok (buildGeojsonFromPaths lineMerge lineSub trail_edges
          ((start_nodes.flatMap f).take max_paths) (some max_distance))
    ∧ (buildGeojsonFromPaths lineMerge lineSub trail_edges
        ((start_nodes.flatMap f).take max_paths)
        (some max_distance)).features.length ≤ max_paths := by
  constructor
  · have hrun := runSearches_ok_eq_take search f max_paths
      (max 1 (max_paths / start_nodes.length)) hs start_nodes [] hm
    rw [List.nil_append] at hrun
    unfold findTrails
    rw [if_neg (by simp [List.isEmpty_iff, hne]), hrun]
  · exact le_trans
      (buildGeojson_length_le lineMerge lineSub trail_edges _ _)
      (List.length_take_le _ _)

/-- Witness for `c7_aggregator_quota_and_cap` at a concrete input. -/
theorem c7_aggregator_quota_and_cap_witness :
    (([1] : List ℤ) ≠ []) ∧ 1 ≤ 5
      ∧ (∀ nd : ℤ, (fun (_ : ℤ) (_ : ℕ) => (.ok [] : Except String (List PathRec))) nd
          (max 1 (5 / ([1] : List ℤ).length)) = .ok ((fun _ => []) nd))
      ∧ (findTrails (fun _ => none) (fun g _ _ => g) [] [1]
            (fun _ _ => .ok []) 10 5
          = .ok (buildGeojsonFromPaths (fun _ => none) (fun g _ _ => g) []
              ((([1] : List ℤ).flatMap (fun _ => [])).take 5) (some 10))
          ∧ (buildGeojsonFromPaths (fun _ => none) (fun g _ _ => g) []
              ((([1] : List ℤ).flatMap (fun _ => [])).take 5)
              (some 10)).features.length ≤ 5) :=
  ⟨by decide, by decide, fun nd => rfl,
    c7_aggregator_quota_and_cap (fun _ => none) (fun g _ _ => g) [] [1]
      (fun _ _ => .ok []) (fun _ => []) 10 5 (by decide) (by decide)
      (fun nd => rfl)⟩

/-- Two-decimal rounding moves a value up by at most `1/200`. -/
theorem round2_le_add (q : ℚ) : round2 q ≤ q + 1 / 200 := by
  have h := abs_sub_round (q * 100)
  rw [abs_le] at h
  unfold round2
  rw [div_le_iff₀ (by norm_num : (0 : ℚ) < 100)]
  have := h.1
  linarith

/-- The truncator either produces an empty coordinate list, or reports
the budget on an over-budget path, or reports the full total cost. -/
theorem truncate_snd_cases (lineMerge : List Geom → Option Geom)
    (lineSub : Geom → ℚ → ℚ → Geom) (trail_edges : List TrailEdge)
    (p : PathRec) (d : ℚ) :
    (truncatePathGeometry lineMerge lineSub trail_edges p d).1 = []
    ∨ ((truncatePathGeometry lineMerge lineSub trail_edges p d).2 = d
        ∧ d < p.total_cost)
    ∨ ((truncatePathGeometry lineMerge lineSub trail_edges p d).2
          = p.total_cost
        ∧ ¬d < p.total_cost) := by
  unfold truncatePathGeometry
  by_cases hpe : p.path_edges.isEmpty
  · rw [if_pos hpe]
    left
    rfl
  · rw [if_neg hpe]
    cases hm : lineMerge (orientedGeoms trail_edges p.path_edges
        p.path_directions) with
    | none =>
        left
        rfl
    | some g =>
        by_cases htr : d < p.total_cost
        · right; left
          refine ⟨?_, htr⟩
          simp [htr]
        · right; right
          refine ⟨?_, htr⟩
          simp [htr]

/-- Every feature the assembler emits under a truncation budget reports
a distance of at most the budget plus the rounding slack. -/
theorem featureOfPath_dist_le (lineMerge : List Geom → Option Geom)
    (lineSub : Geom → ℚ → ℚ → Geom) (trail_edges : List TrailEdge)
    (max_dist : ℚ) (i : ℕ) (p : PathRec) (fe : Feature)
    (h : featureOfPath lineMerge lineSub trail_edges (some max_dist) i p
      = some fe) :
    fe.total_distance_km ≤ max_dist + 1 / 200 := by
  unfold featureOfPath at h
  by_cases hpe : p.path_edges.isEmpty
  · rw [if_pos hpe] at h
    exact absurd h (by simp)
  · rw [if_neg hpe] at h
    simp only [Option.getD_some] at h
    by_cases htr : max_dist < p.total_cost
    · have hc : decide (max_dist < p.total_cost) = true := by
        simpa using htr
      rw [if_pos hc] at h
      by_cases hlen :
        (truncatePathGeometry lineMerge lineSub trail_edges p
          max_dist).1.length < 2
      · rw [if_pos hlen] at h
        exact absurd h (by simp)
      · rw [if_neg hlen] at h
        have hfe : fe.total_distance_km
            = round2 (truncatePathGeometry lineMerge lineSub trail_edges p
              max_dist).2 := by
          cases h
          rfl
        rcases truncate_snd_cases lineMerge lineSub trail_edges p max_dist
          with h0 | ⟨h2, _⟩ | ⟨_, hcon⟩
        · rw [h0] at hlen
          simp at hlen
        · rw [hfe, h2]
          exact round2_le_add max_dist
        · exact absurd htr hcon
    · have hc : ¬decide (max_dist < p.total_cost) = true := by
        simpa using htr
      rw [if_neg hc] at h
      by_cases hlen :
        (truncatePathGeometry lineMerge lineSub trail_edges p
          (p.total_cost + 1)).1.length < 2
      · rw [if_pos hlen] at h
        exact absurd h (by simp)
      · rw [if_neg hlen] at h
        have hfe : fe.total_distance_km
            = round2 (truncatePathGeometry lineMerge lineSub trail_edges p
              (p.total_cost + 1)).2 := by
          cases h
          rfl
        rcases truncate_snd_cases lineMerge lineSub trail_edges p
            (p.total_cost + 1) with h0 | ⟨_, hlt⟩ | ⟨h2, _⟩
        · rw [h0] at hlen
          simp at hlen
        · linarith
        · rw [hfe, h2]
          have hr := round2_le_add p.total_cost
          push_neg at htr
          linarith

/-- C1: every feature of the output FeatureCollection reports
`total_distance_km ≤ max_distance` up to the two-decimal rounding slack
`1/200`; and the truncator, on a path with edges whose merged geometry
exists, takes the line prefix at fraction `budget / total_cost` and
reports the budget when the total cost exceeds the budget, and otherwise
keeps the full line and reports the total cost. -/
theorem c1_truncation_bounds_distance (lineMerge : List Geom → Option Geom)
    (lineSub : Geom → ℚ → ℚ → Geom) (trail_edges : List TrailEdge)
    (paths : List PathRec) (max_distance : ℚ) (p : PathRec)
    (hp : p.path_edges ≠ []) :
    (∀ fe ∈ (buildGeojsonFromPaths lineMerge lineSub trail_edges paths
        (some max_distance)).features,
      fe.total_distance_km ≤ max_distance + 1 / 200)
    ∧ (∀ g, lineMerge (orientedGeoms trail_edges p.path_edges
          p.path_directions) = some g →
        (max_distance < p.total_cost →
          truncatePathGeometry lineMerge lineSub trail_edges p max_distance
            = (lineSub g 0 (max_distance / p.total_cost), max_distance))
        ∧ (¬max_distance < p.total_cost →
          truncatePathGeometry lineMerge lineSub trail_edges p max_distance
            = (g, p.total_cost))) := by
  constructor
  · intro fe hfe
    unfold buildGeojsonFromPaths at hfe
    by_cases hps : paths.isEmpty
    · rw [if_pos hps] at hfe
      simp at hfe
    · rw [if_neg hps] at hfe
      simp only [List.mem_filterMap] at hfe
      obtain ⟨ip, _, hip⟩ := hfe
      exact featureOfPath_dist_le lineMerge lineSub trail_edges max_distance
        ip.1 ip.2 fe hip
  · intro g hg
    have hpe : ¬p.path_edges.isEmpty := by
      simpa [List.isEmpty_iff] using hp
    constructor
    · intro htr
      unfold truncatePathGeometry
      rw [if_neg hpe, hg]
      simp [htr]
    · intro htr
      unfold truncatePathGeometry
      rw [if_neg hpe, hg]
      simp [htr]

/-- Witness for `c1_truncation_bounds_distance` at a concrete input. -/
theorem c1_truncation_bounds_distance_witness :
    ((⟨[1], [true], [1, 2], 5⟩ : PathRec).path_edges ≠ [])
      ∧ ((∀ fe ∈ (buildGeojsonFromPaths (fun _ => none) (fun g _ _ => g) []
            [] (some 3)).features,
          fe.total_distance_km ≤ 3 + 1 / 200)
        ∧ (∀ g, (fun (_ : List Geom) => (none : Option Geom))
              (orientedGeoms [] (⟨[1], [true], [1, 2], 5⟩ : PathRec).path_edges
                (⟨[1], [true], [1, 2], 5⟩ : PathRec).path_directions) = some g →
            ((3 : ℚ) < (⟨[1], [true], [1, 2], 5⟩ : PathRec).total_cost →
              truncatePathGeometry (fun _ => none) (fun g _ _ => g) []
                  ⟨[1], [true], [1, 2], 5⟩ 3
                = ((fun (g : Geom) (_ _ : ℚ) => g) g 0
                    (3 / (⟨[1], [true], [1, 2], 5⟩ : PathRec).total_cost), 3))
            ∧ (¬(3 : ℚ) < (⟨[1], [true], [1, 2], 5⟩ : PathRec).total_cost →
              truncatePathGeometry (fun _ => none) (fun g _ _ => g) []
                  ⟨[1], [true], [1, 2], 5⟩ 3
                = (g, (⟨[1], [true], [1, 2], 5⟩ : PathRec).total_cost)))) :=
  ⟨by decide,
    c1_truncation_bounds_distance (fun _ => none) (fun g _ _ => g) [] []
      3 ⟨[1], [true], [1, 2], 5⟩ (by decide)⟩

/-- A left fold keeping the strictly-greater element returns a member of
the candidate set (or the seed) whose key dominates seed and members. -/
theorem foldlMax_mem_le {α : Type} (key : α → ℚ) :
    ∀ (xs : List α) (x : α),
      (xs.foldl (fun acc n => if key acc < key n then n else acc) x = x
        ∨ xs.foldl (fun acc n => if key acc < key n then n else acc) x ∈ xs)
      ∧ key x ≤ key (xs.foldl (fun acc n => if key acc < key n then n else acc) x)
      ∧ ∀ y ∈ xs,
          key y ≤ key (xs.foldl (fun acc n => if key acc < key n then n else acc) x) := by
  intro xs
  induction xs with
  | nil =>
      intro x
      exact ⟨Or.inl rfl, le_refl _, by simp⟩
  | cons z zs ih =>
      intro x
      simp only [List.foldl_cons]
      obtain ⟨hmem, hle, hall⟩ := ih (if key x < key z then z else x)
      have hx : key x ≤ key (if key x < key z then z else x) := by
        by_cases hc : key x < key z
        · rw [if_pos hc]
          exact le_of_lt hc
        · rw [if_neg hc]
      have hz : key z ≤ key (if key x < key z then z else x) := by
        by_cases hc : key x < key z
        · rw [if_pos hc]
        · rw [if_neg hc]
          exact le_of_not_lt hc
      refine ⟨?_, le_trans hx hle, ?_⟩
      · rcases hmem with h | h
        · rw [h]
          by_cases hc : key x < key z
          · rw [if_pos hc]
            exact Or.inr (List.mem_cons_self z zs)
          · rw [if_neg hc]
            exact Or.inl rfl
        · exact Or.inr (List.mem_cons_of_mem z h)
      · intro y hy
        rcases List.mem_cons.mp hy with rfl | hy'
        · exact le_trans hz hle
        · exact hall y hy'

/-- `pyMax` returns a member whose key dominates the whole list. -/
theorem pyMax_spec (key : NodePt → ℚ) (l : List NodePt) (t : NodePt)
    (h : pyMax key l = some t) : t ∈ l ∧ ∀ x ∈ l, key x ≤ key t := by
  cases l with
  | nil => simp [pyMax] at h
  | cons x xs =>
      simp only [pyMax, Option.some.injEq] at h
      obtain ⟨hmem, hle, hall⟩ := foldlMax_mem_le key xs x
      rw [h] at hmem hle hall
      constructor
      · rcases hmem with h' | h'
        · rw [h']
          exact List.mem_cons_self x xs
        · exact List.mem_cons_of_mem x h'
      · intro y hy
        rcases List.mem_cons.mp hy with rfl | hy'
        · exact hle
        · exact hall y hy'

/-- The `rn = 1` pick of a `(source, target)` partition is a member of
the partition, carries that key, and has maximal length in it. -/
theorem longestForPair_spec (es : List PotEdge) (p : ℤ × ℤ) (e : PotEdge)
    (h : longestForPair es p = some e) :
    e ∈ es.filter (fun x => edgeKey x == p)
    ∧ edgeKey e = p
    ∧ ∀ y ∈ es.filter (fun x => edgeKey x == p),
        y.seg.length_km ≤ e.seg.length_km := by
  unfold longestForPair at h
  cases hf : es.filter (fun x => edgeKey x == p) with
  | nil =>
      rw [hf] at h
      simp at h
  | cons x xs =>
      rw [hf] at h
      simp only [Option.some.injEq] at h
      obtain ⟨hmem, hle, hall⟩ :=
        foldlMax_mem_le (fun y : PotEdge => y.seg.length_km) xs x
      rw [h] at hmem hle hall
      have hmem' : e ∈ x :: xs := by
        rcases hmem with h' | h'
        · rw [h']
          exact List.mem_cons_self x xs
        · exact List.mem_cons_of_mem x h'
      refine ⟨hmem', ?_, ?_⟩
      · have := List.mem_filter.mp (hf ▸ hmem')
        exact eq_of_beq this.2
      · intro y hy
        rcases List.mem_cons.mp hy with rfl | hy'
        · exact hle
        · exact hall y hy'

/-- Every potential edge records distinct resolved endpoint nodes that
pass both proximity checks, and originates from an input segment. -/
theorem potentialEdges_mem (snap_tolerance : ℚ) (trail_nodes : List TrailNode)
    (segs : List Segment) (e : PotEdge)
    (he : e ∈ potentialEdges snap_tolerance trail_nodes segs) :
    e.seg ∈ segs
    ∧ ∃ nsrc ntgt,
        nearestNode trail_nodes e.seg.start_pt = some nsrc
        ∧ nearestNode trail_nodes e.seg.end_pt = some ntgt
        ∧ e.source_node_id = nsrc.id ∧ e.target_node_id = ntgt.id
        ∧ nsrc.id ≠ ntgt.id
        ∧ sqDistPt nsrc.geom e.seg.start_pt < (10 * snap_tolerance) ^ 2
        ∧ sqDistPt ntgt.geom e.seg.end_pt < (10 * snap_tolerance) ^ 2 := by
  unfold potentialEdges at he
  simp only [List.mem_filterMap] at he
  obtain ⟨s, hs, hsome⟩ := he
  cases h1 : nearestNode trail_nodes s.start_pt with
  | none =>
      rw [h1] at hsome
      simp at hsome
  | some src =>
      cases h2 : nearestNode trail_nodes s.end_pt with
      | none =>
          rw [h1, h2] at hsome
          simp at hsome
      | some tgt =>
          rw [h1, h2] at hsome
          replace hsome : (if src.id ≠ tgt.id
              ∧ sqDistPt src.geom s.start_pt < (10 * snap_tolerance) ^ 2
              ∧ sqDistPt tgt.geom s.end_pt < (10 * snap_tolerance) ^ 2 then
                some (⟨src.id, tgt.id, s⟩ : PotEdge) else none)
              = some e := hsome
          by_cases hcond : src.id ≠ tgt.id
              ∧ sqDistPt src.geom s.start_pt < (10 * snap_tolerance) ^ 2
              ∧ sqDistPt tgt.geom s.end_pt < (10 * snap_tolerance) ^ 2
          · rw [if_pos hcond] at hsome
            cases hsome
            exact ⟨hs, src, tgt, h1, h2, rfl, rfl, hcond.1, hcond.2.1,
              hcond.2.2⟩
          · rw [if_neg hcond] at hsome
            simp at hsome

/-- Every inserted edge is a potential edge of maximal length among the
potential edges sharing its `(source, target)` pair. -/
theorem insertedEdges_spec (snap_tolerance : ℚ)
    (trail_nodes : List TrailNode) (segs : List Segment) (e : PotEdge)
    (he : e ∈ insertedEdges snap_tolerance trail_nodes segs) :
    e ∈ potentialEdges snap_tolerance trail_nodes segs
    ∧ ∀ y ∈ potentialEdges snap_tolerance trail_nodes segs,
        edgeKey y = edgeKey e → y.seg.length_km ≤ e.seg.length_km := by
  unfold insertedEdges at he
  simp only [List.mem_filterMap] at he
  obtain ⟨p, _, hlp⟩ := he
  obtain ⟨hmemf, hkey, hall⟩ := longestForPair_spec _ p e hlp
  refine ⟨(List.mem_filter.mp hmemf).1, ?_⟩
  intro y hy hk
  refine hall y (List.mem_filter.mpr ⟨hy, ?_⟩)
  rw [hk, hkey]
  simp

/-- C8: edge-creation filtering.  A split segment whose two endpoints
resolve to the same node inserts nothing; a segment whose resolved node
sits at squared distance at least `(10 × snap_tolerance)²` from the true
endpoint (in particular, strictly farther than `10 × snap_tolerance`)
inserts nothing; every inserted edge has distinct endpoint nodes passing
both proximity checks; and per `(source, target)` pair exactly one edge
is inserted, of maximal `length_km` among that pair's candidates. -/
theorem c8_segment_filters_and_dedup (snap_tolerance : ℚ)
    (trail_nodes : List TrailNode) (segs : List Segment) :
    (∀ s ∈ segs, ∀ n n', nearestNode trail_nodes s.start_pt = some n →
        nearestNode trail_nodes s.end_pt = some n' → n.id = n'.id →
        ∀ e ∈ insertedEdges snap_tolerance trail_nodes segs, e.seg ≠ s)
    ∧ (∀ s ∈ segs, ∀ n, nearestNode trail_nodes s.start_pt = some n →
        (10 * snap_tolerance) ^ 2 ≤ sqDistPt n.geom s.start_pt →
        ∀ e ∈ insertedEdges snap_tolerance trail_nodes segs, e.seg ≠ s)
    ∧ (∀ s ∈ segs, ∀ n, nearestNode trail_nodes s.end_pt = some n →
        (10 * snap_tolerance) ^ 2 ≤ sqDistPt n.geom s.end_pt →
        ∀ e ∈ insertedEdges snap_tolerance trail_nodes segs, e.seg ≠ s)
    ∧ (∀ e ∈ insertedEdges snap_tolerance trail_nodes segs,
        e.source_node_id ≠ e.target_node_id)
    ∧ (∀ e ∈ insertedEdges snap_tolerance trail_nodes segs,
        ∀ y ∈ potentialEdges snap_tolerance trail_nodes segs,
          edgeKey y = edgeKey e → y.seg.length_km ≤ e.seg.length_km)
    ∧ (∀ e ∈ insertedEdges snap_tolerance trail_nodes segs,
        ∀ e' ∈ insertedEdges snap_tolerance trail_nodes segs,
          edgeKey e = edgeKey e' → e = e') := by
  refine ⟨?_, ?_, ?_, ?_, ?_, ?_⟩
  · intro s _ n n' h1 h2 hid e he hseg
    obtain ⟨_, nsrc, ntgt, g1, g2, _, _, hne, _, _⟩ :=
      potentialEdges_mem snap_tolerance trail_nodes segs e
        (insertedEdges_spec snap_tolerance trail_nodes segs e he).1
    rw [hseg, h1] at g1
    rw [hseg, h2] at g2
    cases g1
    cases g2
    exact hne hid
  · intro s _ n h1 hfar e he hseg
    obtain ⟨_, nsrc, ntgt, g1, _, _, _, _, hnear, _⟩ :=
      potentialEdges_mem snap_tolerance trail_nodes segs e
        (insertedEdges_spec snap_tolerance trail_nodes segs e he).1
    rw [hseg, h1] at g1
    cases g1
    rw [hseg] at hnear
    exact absurd hnear (not_lt.mpr hfar)
  · intro s _ n h2 hfar e he hseg
    obtain ⟨_, nsrc, ntgt, _, g2, _, _, _, _, hnear⟩ :=
      potentialEdges_mem snap_tolerance trail_nodes segs e
        (insertedEdges_spec snap_tolerance trail_nodes segs e he).1
    rw [hseg, h2] at g2
    cases g2
    rw [hseg] at hnear
    exact absurd hnear (not_lt.mpr hfar)
  · intro e he
    obtain ⟨_, nsrc, ntgt, _, _, hsrc, htgt, hne, _, _⟩ :=
      potentialEdges_mem snap_tolerance trail_nodes segs e
        (insertedEdges_spec snap_tolerance trail_nodes segs e he).1
    rw [hsrc, htgt]
    exact hne
  · intro e he
    exact (insertedEdges_spec snap_tolerance trail_nodes segs e he).2
  · intro e he e' he' hk
    unfold insertedEdges at he he'
    simp only [List.mem_filterMap] at he he'
    obtain ⟨p, _, hlp⟩ := he
    obtain ⟨p', _, hlp'⟩ := he'
    have h1 := (longestForPair_spec _ p e hlp).2.1
    have h2 := (longestForPair_spec _ p' e' hlp').2.1
    have hpp : p = p' := by rw [← h1, ← h2, hk]
    rw [hpp] at hlp
    rw [hlp] at hlp'
    exact Option.some.inj hlp'

/-- The row invariant maintained by the recursive CTE: parallel column
lengths, edge- and node-disjointness, `visited_edges` mirroring
`path_edges`, and the distance budget once at least one edge is taken. -/
def StateInv (max_distance : ℚ) (tp : PathState) : Prop :=
  tp.path_directions.length = tp.path_edges.length
  ∧ tp.node_sequence.length = tp.path_edges.length + 1
  ∧ tp.path_edges.Nodup
  ∧ tp.node_sequence.Nodup
  ∧ tp.visited_edges = tp.path_edges
  ∧ (tp.path_edges ≠ [] → tp.total_cost ≤ max_distance)

/-- The recursive step of the CTE preserves the row invariant. -/
theorem edgeStep_inv (max_distance : ℚ) (tp : PathState) (te : TrailEdge)
    (tp' : PathState) (h : edgeStep max_distance tp te = some tp')
    (hinv : StateInv max_distance tp) : StateInv max_distance tp' := by
  unfold edgeStep at h
  by_cases hc : (te.source_node_id = tp.last_node
        ∨ te.target_node_id = tp.last_node)
      ∧ te.id ∉ tp.visited_edges
      ∧ tp.total_cost + te.length_km ≤ max_distance
      ∧ farNode tp te ∉ tp.node_sequence
  · rw [if_pos hc] at h
    cases h
    obtain ⟨h1, h2, h3, h4, h5, _⟩ := hinv
    have hni : te.id ∉ tp.path_edges := h5 ▸ hc.2.1
    refine ⟨by simp [h1], by simp [h2], ?_, ?_, by simp [h5],
      fun _ => hc.2.2.1⟩
    · simp [List.nodup_append, h3, hni]
    · simp [List.nodup_append, h4, hc.2.2.2]
  · rw [if_neg hc] at h
    exact absurd h (by simp)

/-- Any guard of the recursive step that fired certifies the budget, the
fresh far node and the fresh edge id, and the cost update. -/
theorem edgeStep_conditions (max_distance : ℚ) (tp : PathState)
    (te : TrailEdge) (tp' : PathState)
    (h : edgeStep max_distance tp te = some tp') :
    tp.total_cost + te.length_km ≤ max_distance
    ∧ farNode tp te ∉ tp.node_sequence
    ∧ te.id ∉ tp.visited_edges
    ∧ tp'.total_cost = tp.total_cost + te.length_km := by
  unfold edgeStep at h
  by_cases hc : (te.source_node_id = tp.last_node
        ∨ te.target_node_id = tp.last_node)
      ∧ te.id ∉ tp.visited_edges
      ∧ tp.total_cost + te.length_km ≤ max_distance
      ∧ farNode tp te ∉ tp.node_sequence
  · rw [if_pos hc] at h
    cases h
    exact ⟨hc.2.2.1, hc.2.2.2, hc.2.1, rfl⟩
  · rw [if_neg hc] at h
    exact absurd h (by simp)

/-- Every row of every round of the recursive CTE satisfies the row
invariant. -/
theorem cteLevel_inv (trail_nodes : List ℤ) (trail_edges : List TrailEdge)
    (start_node_id : ℤ) (max_distance : ℚ) :
    ∀ n, ∀ tp ∈ cteLevel trail_nodes trail_edges start_node_id max_distance n,
      StateInv max_distance tp := by
  intro n
  induction n with
  | zero =>
      intro tp htp
      unfold cteLevel initStates at htp
      simp only [List.mem_map, List.mem_filter] at htp
      obtain ⟨i, _, rfl⟩ := htp
      exact ⟨rfl, rfl, List.nodup_nil, List.nodup_singleton i, rfl,
        fun hne => absurd rfl hne⟩
  | succ n ih =>
      intro tp htp
      unfold cteLevel expandStates at htp
      simp only [List.mem_flatMap, List.mem_filterMap] at htp
      obtain ⟨tp₀, h₀, te, _, hstep⟩ := htp
      exact edgeStep_inv max_distance tp₀ te tp hstep (ih tp₀ h₀)

/-- Every path returned by `find_paths_from_node` satisfies the row
invariant and has at least one edge. -/
theorem findPathsFromNode_mem (trail_nodes : List ℤ)
    (trail_edges : List TrailEdge) (start_node_id : ℤ) (max_distance : ℚ)
    (max_paths : Option ℕ) (tp : PathState)
    (h : tp ∈ findPathsFromNode trail_nodes trail_edges start_node_id
      max_distance max_paths) :
    StateInv max_distance tp ∧ tp.path_edges ≠ [] := by
  have hval : ∀ x ∈ List.insertionSort costGE
      ((cteStates trail_nodes trail_edges start_node_id max_distance
          trail_edges.length).filter (fun tp => !tp.path_edges.isEmpty)),
      StateInv max_distance x ∧ x.path_edges ≠ [] := by
    intro x hx
    have hx' := (List.perm_insertionSort costGE _).mem_iff.mp hx
    rw [List.mem_filter] at hx'
    constructor
    · have hcs := hx'.1
      unfold cteStates at hcs
      simp only [List.mem_flatMap, List.mem_range] at hcs
      obtain ⟨n, _, hn⟩ := hcs
      exact cteLevel_inv trail_nodes trail_edges start_node_id max_distance
        n x hn
    · simpa using hx'.2
  unfold findPathsFromNode at h
  cases max_paths with
  | none => exact hval tp h
  | some k =>
      replace h : tp ∈ (if (k != 0) = true then
          (List.insertionSort costGE
            ((cteStates trail_nodes trail_edges start_node_id max_distance
                trail_edges.length).filter
              (fun tp => !tp.path_edges.isEmpty))).take k
        else List.insertionSort costGE
          ((cteStates trail_nodes trail_edges start_node_id max_distance
              trail_edges.length).filter
            (fun tp => !tp.path_edges.isEmpty))) := h
      by_cases hk : (k != 0) = true
      · rw [if_pos hk] at h
        exact hval tp (List.take_subset k _ h)
      · rw [if_neg hk] at h
        exact hval tp h

/-- With a positive limit, `find_paths_from_node` is the sorted valid
row set truncated to the limit. -/
theorem findPathsFromNode_some_pos (trail_nodes : List ℤ)
    (trail_edges : List TrailEdge) (start_node_id : ℤ) (max_distance : ℚ)
    (k : ℕ) (hk : k ≠ 0) :
    findPathsFromNode trail_nodes trail_edges start_node_id max_distance
        (some k)
      = (List.insertionSort costGE
          ((cteStates trail_nodes trail_edges start_node_id max_distance
              trail_edges.length).filter
            (fun tp => !tp.path_edges.isEmpty))).take k := by
  unfold findPathsFromNode
  simp [hk]

/-- C9: with a positive result limit, every returned path has at least
one edge and total cost within `max_distance`; each CTE expansion only
fires within the budget, to an unvisited far node, over a fresh edge id;
and the result list is ordered by descending total cost and truncated to
the limit. -/
theorem c9_exhaustive_budget_order_limit (trail_nodes : List ℤ)
    (trail_edges : List TrailEdge) (start_node_id : ℤ) (max_distance : ℚ)
    (k : ℕ) (hk : 1 ≤ k) :
    (∀ tp ∈ findPathsFromNode trail_nodes trail_edges start_node_id
        max_distance (some k),
      tp.path_edges ≠ [] ∧ tp.total_cost ≤ max_distance)
    ∧ (∀ (tp : PathState) (te : TrailEdge) (tp' : PathState),
        edgeStep max_distance tp te = some tp' →
          tp.total_cost + te.length_km ≤ max_distance
          ∧ farNode tp te ∉ tp.node_sequence
          ∧ te.id ∉ tp.visited_edges
          ∧ tp'.total_cost = tp.total_cost + te.length_km)
    ∧ List.Pairwise costGE (findPathsFromNode trail_nodes trail_edges
        start_node_id max_distance (some k))
    ∧ (findPathsFromNode trail_nodes trail_edges start_node_id max_distance
        (some k)).length ≤ k := by
  refine ⟨?_, edgeStep_conditions max_distance, ?_, ?_⟩
  · intro tp htp
    obtain ⟨hinv, hne⟩ := findPathsFromNode_mem trail_nodes trail_edges
      start_node_id max_distance (some k) tp htp
    exact ⟨hne, hinv.2.2.2.2.2 hne⟩
  · rw [findPathsFromNode_some_pos trail_nodes trail_edges start_node_id
      max_distance k (by omega)]
    exact List.Pairwise.sublist (List.take_sublist k _)
      (List.sorted_insertionSort costGE _)
  · rw [findPathsFromNode_some_pos trail_nodes trail_edges start_node_id
      max_distance k (by omega)]
    exact List.length_take_le k _

/-- Witness for `c9_exhaustive_budget_order_limit` at a concrete
input. -/
theorem c9_exhaustive_budget_order_limit_witness :
    1 ≤ 1
      ∧ ((∀ tp ∈ findPathsFromNode [1, 2]
            [⟨10, 1, 2, 3, [(0, 0), (1, 1)]⟩] 1 5 (some 1),
          tp.path_edges ≠ [] ∧ tp.total_cost ≤ 5)
        ∧ (∀ (tp : PathState) (te : TrailEdge) (tp' : PathState),
            edgeStep 5 tp te = some tp' →
              tp.total_cost + te.length_km ≤ 5
              ∧ farNode tp te ∉ tp.node_sequence
              ∧ te.id ∉ tp.visited_edges
              ∧ tp'.total_cost = tp.total_cost + te.length_km)
        ∧ List.Pairwise costGE (findPathsFromNode [1, 2]
            [⟨10, 1, 2, 3, [(0, 0), (1, 1)]⟩] 1 5 (some 1))
        ∧ (findPathsFromNode [1, 2]
            [⟨10, 1, 2, 3, [(0, 0), (1, 1)]⟩] 1 5 (some 1)).length ≤ 1) :=
  ⟨by decide,
    c9_exhaustive_budget_order_limit [1, 2] [⟨10, 1, 2, 3, [(0, 0), (1, 1)]⟩]
      1 5 1 (by decide)⟩

/-- Well-formedness of a non-empty `pgr_dijkstra` result for a pair of
distinct endpoints (the extension's documented one-row-per-step output):
at least two rows, pairwise-distinct visited nodes, the `-1` edge
sentinel exactly on the last row, and pairwise-distinct edge ids. -/
def PgrWF (rows : List PgrRow) : Prop :=
  2 ≤ rows.length
  ∧ (rows.map (·.node)).Nodup
  ∧ (∀ r ∈ rows.dropLast, r.edge ≠ -1)
  ∧ (rows.getLastD ⟨0, 0, 0⟩).edge = -1
  ∧ ((rows.filter (fun r => r.edge != -1)).map (·.edge)).Nodup

/-- `_format_path` on a well-formed `pgr_dijkstra` result yields a path
record satisfying the Path invariant, with at least one edge. -/
theorem formatPath_invariant (trail_edges : List TrailEdge)
    (rows : List PgrRow) (p : PathRec) (hwf : PgrWF rows)
    (hfp : formatPath trail_edges rows = some p) :
    p.path_directions.length = p.path_edges.length
    ∧ p.node_sequence.length = p.path_edges.length + 1
    ∧ p.path_edges.Nodup
    ∧ p.node_sequence.Nodup
    ∧ p.path_edges ≠ [] := by
  obtain ⟨hlen2, hnodes, hdrop, hlastD, hedges⟩ := hwf
  have hne : rows ≠ [] := by
    intro hr
    rw [hr] at hlen2
    simp at hlen2
  have hlast : (rows.getLast hne).edge = -1 := by
    rw [List.getLastD_eq_getLast?, List.getLast?_eq_getLast rows hne] at hlastD
    simpa using hlastD
  have hfilter : rows.filter (fun r => r.edge != -1) = rows.dropLast := by
    conv_lhs => rw [← List.dropLast_concat_getLast hne]
    rw [List.filter_append]
    have h1 : rows.dropLast.filter (fun r => r.edge != -1) = rows.dropLast :=
      List.filter_eq_self.mpr (fun a ha => by simpa using hdrop a ha)
    have h2 : [rows.getLast hne].filter (fun r => r.edge != -1) = [] := by
      simp [List.filter_cons, hlast]
    rw [h1, h2, List.append_nil]
  have hplen : ((rows.filter (fun r => r.edge != -1)).map (·.edge)).length
      = rows.length - 1 := by
    rw [hfilter]
    simp
  have hpne : (rows.filter (fun r => r.edge != -1)).map (·.edge) ≠ [] := by
    intro h0
    rw [h0] at hplen
    simp at hplen
    omega
  have hfp' : formatPath trail_edges rows
      = some ⟨(rows.filter (fun r => r.edge != -1)).map (·.edge),
          (List.range ((rows.map (·.node)).length - 1)).map (fun i =>
            match edgeSource trail_edges
                (((rows.filter (fun r => r.edge != -1)).map (·.edge)).getD i 0)
              with
            | some s => decide (s = (rows.map (·.node)).getD i 0)
            | none => false),
          rows.map (·.node),
          (rows.getLastD ⟨0, 0, 0⟩).agg_cost⟩ := by
    simp only [formatPath]
    rw [if_neg (by simpa [List.isEmpty_iff] using hne)]
    rw [if_neg (by simpa [List.isEmpty_iff] using hpne)]
  rw [hfp'] at hfp
  cases hfp
  refine ⟨?_, ?_, hedges, by simpa using hnodes, hpne⟩
  · simp [hplen]
  · simp only [List.length_map]
    rw [hfilter]
    simp only [List.length_dropLast]
    omega

/-- One unrolling of the dijkstra collection loop, phrased through the
per-target outcome `routeFormatted`. -/
def routeFormatted (trail_edges : List TrailEdge) (route : ℤ → List PgrRow)
    (t : NodePt) : Option PathRec :=
  if (route t.id).isEmpty then none else formatPath trail_edges (route t.id)

/-- The cons equation of `collectPaths` via `routeFormatted`. -/
theorem collectPaths_cons (trail_edges : List TrailEdge)
    (route : ℤ → List PgrRow) (max_paths : ℕ) (t : NodePt)
    (ts : List NodePt) (acc : List PathRec) :
    collectPaths trail_edges route max_paths (t :: ts) acc
      = if max_paths
            ≤ (acc ++ (routeFormatted trail_edges route t).toList).length
        then acc ++ (routeFormatted trail_edges route t).toList
        else collectPaths trail_edges route max_paths ts
          (acc ++ (routeFormatted trail_edges route t).toList) := by
  simp only [collectPaths, routeFormatted]
  by_cases hr : (route t.id).isEmpty = true
  · simp [hr]
  · cases hf : formatPath trail_edges (route t.id) with
    | none => simp [hr, hf]
    | some fp => simp [hr, hf]

/-- A member of a `routeFormatted` outcome certifies a non-empty
`pgr_dijkstra` result that formats to it. -/
theorem routeFormatted_toList_mem (trail_edges : List TrailEdge)
    (route : ℤ → List PgrRow) (t : NodePt) (p : PathRec)
    (h : p ∈ (routeFormatted trail_edges route t).toList) :
    ¬(route t.id).isEmpty = true
    ∧ formatPath trail_edges (route t.id) = some p := by
  cases hf : routeFormatted trail_edges route t with
  | none =>
      rw [hf] at h
      simp at h
  | some fp =>
      rw [hf] at h
      simp only [Option.toList_some, List.mem_singleton] at h
      subst h
      unfold routeFormatted at hf
      by_cases hr : (route t.id).isEmpty = true
      · rw [if_pos hr] at hf
        exact absurd hf (by simp)
      · rw [if_neg hr] at hf
        exact ⟨hr, hf⟩

/-- Every path collected by the dijkstra loop came from formatting some
target's non-empty `pgr_dijkstra` result (or was already accumulated). -/
theorem collectPaths_mem (trail_edges : List TrailEdge)
    (route : ℤ → List PgrRow) (max_paths : ℕ) :
    ∀ (ts : List NodePt) (acc : List PathRec) (p : PathRec),
      p ∈ collectPaths trail_edges route max_paths ts acc →
      p ∈ acc ∨ ∃ t : NodePt, ¬(route t.id).isEmpty = true
        ∧ formatPath trail_edges (route t.id) = some p := by
  intro ts
  induction ts with
  | nil =>
      intro acc p h
      exact Or.inl (by simpa [collectPaths] using h)
  | cons t ts ih =>
      intro acc p h
      rw [collectPaths_cons] at h
      by_cases hm : max_paths
          ≤ (acc ++ (routeFormatted trail_edges route t).toList).length
      · rw [if_pos hm] at h
        rcases List.mem_append.mp h with h' | h'
        · exact Or.inl h'
        · exact Or.inr ⟨t, routeFormatted_toList_mem trail_edges route t p h'⟩
      · rw [if_neg hm] at h
        rcases ih _ p h with h' | h'
        · rcases List.mem_append.mp h' with h'' | h''
          · exact Or.inl h''
          · exact Or.inr
              ⟨t, routeFormatted_toList_mem trail_edges route t p h''⟩
        · exact Or.inr h'

/-- Every path returned by the diversity-sampled strategy came from
formatting some target's non-empty `pgr_dijkstra` result. -/
theorem findPathsFromNodeOptimized_mem (trail_edges : List TrailEdge)
    (start_geom : NodePt) (cands : List NodePt) (bearingOf : NodePt → ℚ)
    (route : ℤ → List PgrRow) (max_paths : ℕ) (p : PathRec)
    (h : p ∈ findPathsFromNodeOptimized trail_edges start_geom cands
      bearingOf route max_paths) :
    ∃ t : NodePt, ¬(route t.id).isEmpty = true
      ∧ formatPath trail_edges (route t.id) = some p := by
  unfold findPathsFromNodeOptimized at h
  by_cases hc : cands.isEmpty = true
  · rw [if_pos hc] at h
    simp at h
  · rw [if_neg hc] at h
    rcases collectPaths_mem trail_edges route max_paths _ [] p h with h' | h'
    · simp at h'
    · exact h'

/-- C5: every path produced by either search strategy satisfies the Path
invariant — parallel lengths `|directions| = |edges| = |nodes| - 1`,
pairwise-distinct edge ids, pairwise-distinct node ids — and the
zero-edge degenerate path is never returned (for the diversity-sampled
strategy, under well-formedness of the `pgr_dijkstra` collaborator's
output). -/
theorem c5_path_invariants (trail_nodes : List ℤ)
    (trail_edges : List TrailEdge) (start_node_id : ℤ) (max_distance : ℚ)
    (max_paths : Option ℕ) (start_geom : NodePt) (cands : List NodePt)
    (bearingOf : NodePt → ℚ) (route : ℤ → List PgrRow) (k : ℕ)
    (hroute : ∀ tid : ℤ, route tid ≠ [] → PgrWF (route tid)) :
    (∀ tp ∈ findPathsFromNode trail_nodes trail_edges start_node_id
        max_distance max_paths,
      tp.path_directions.length = tp.path_edges.length
      ∧ tp.node_sequence.length = tp.path_edges.length + 1
      ∧ tp.path_edges.Nodup ∧ tp.node_sequence.Nodup
      ∧ tp.path_edges ≠ [])
    ∧ (∀ p ∈ findPathsFromNodeOptimized trail_edges start_geom cands
        bearingOf route k,
      p.path_directions.length = p.path_edges.length
      ∧ p.node_sequence.length = p.path_edges.length + 1
      ∧ p.path_edges.Nodup ∧ p.node_sequence.Nodup
      ∧ p.path_edges ≠ []) := by
  constructor
  · intro tp htp
    obtain ⟨⟨h1, h2, h3, h4, _, _⟩, hne⟩ := findPathsFromNode_mem trail_nodes
      trail_edges start_node_id max_distance max_paths tp htp
    exact ⟨h1, h2, h3, h4, hne⟩
  · intro p hp
    obtain ⟨t, hr, hfp⟩ := findPathsFromNodeOptimized_mem trail_edges
      start_geom cands bearingOf route k p hp
    have hwf := hroute t.id (by simpa [List.isEmpty_iff] using hr)
    exact formatPath_invariant trail_edges (route t.id) p hwf hfp

/-- Witness for `c5_path_invariants` at a concrete input. -/
theorem c5_path_invariants_witness :
    (∀ tid : ℤ,
        (fun (_ : ℤ) => [(⟨1, 10, 0⟩ : PgrRow), ⟨2, -1, 1⟩]) tid ≠ [] →
        PgrWF ((fun (_ : ℤ) => [(⟨1, 10, 0⟩ : PgrRow), ⟨2, -1, 1⟩]) tid))
      ∧ ((∀ tp ∈ findPathsFromNode [1, 2] [⟨10, 1, 2, 3, [(0, 0), (1, 1)]⟩]
            1 5 (some 1),
          tp.path_directions.length = tp.path_edges.length
          ∧ tp.node_sequence.length = tp.path_edges.length + 1
          ∧ tp.path_edges.Nodup ∧ tp.node_sequence.Nodup
          ∧ tp.path_edges ≠ [])
        ∧ (∀ p ∈ findPathsFromNodeOptimized [⟨10, 1, 2, 3, [(0, 0), (1, 1)]⟩]
            ⟨1, 0, 0⟩ [⟨2, 1, 1⟩] (fun _ => 90)
            (fun _ => [⟨1, 10, 0⟩, ⟨2, -1, 1⟩]) 1,
          p.path_directions.length = p.path_edges.length
          ∧ p.node_sequence.length = p.path_edges.length + 1
          ∧ p.path_edges.Nodup ∧ p.node_sequence.Nodup
          ∧ p.path_edges ≠ [])) :=
  have hr : ∀ tid : ℤ,
      (fun (_ : ℤ) => [(⟨1, 10, 0⟩ : PgrRow), ⟨2, -1, 1⟩]) tid ≠ [] →
      PgrWF ((fun (_ : ℤ) => [(⟨1, 10, 0⟩ : PgrRow), ⟨2, -1, 1⟩]) tid) :=
    fun _ _ => show PgrWF [(⟨1, 10, 0⟩ : PgrRow), ⟨2, -1, 1⟩] from
      ⟨by decide, by decide, by decide, by decide, by decide⟩
  ⟨hr,
    c5_path_invariants [1, 2] [⟨10, 1, 2, 3, [(0, 0), (1, 1)]⟩] 1 5 (some 1)
      ⟨1, 0, 0⟩ [⟨2, 1, 1⟩] (fun _ => 90)
      (fun _ => [⟨1, 10, 0⟩, ⟨2, -1, 1⟩]) 1 hr⟩

/-- A normalised bearing falls into a bin index within `[0, num_bins)`. -/
theorem binIndex_range (num_bins : ℕ) (b : ℚ) (hn : 0 < num_bins)
    (hb0 : 0 ≤ b) (hb1 : b < 360) :
    0 ≤ binIndex num_bins b ∧ binIndex num_bins b < (num_bins : ℤ) := by
  have hnq : (0 : ℚ) < (num_bins : ℚ) := by exact_mod_cast hn
  have hpos : (0 : ℚ) < 360 / (num_bins : ℚ) := div_pos (by norm_num) hnq
  constructor
  · exact Int.floor_nonneg.mpr (div_nonneg hb0 (le_of_lt hpos))
  · rw [binIndex, Int.floor_lt]
    push_cast
    rw [div_lt_iff₀ hpos]
    have h360 : (num_bins : ℚ) * (360 / (num_bins : ℚ)) = 360 := by
      field_simp
    rw [h360]
    exact hb1

/-- The `b`-th angular bin collects exactly the candidates whose bearing
falls in it, in input order. -/
theorem binsFor_getD (num_bins : ℕ) (bearingOf : NodePt → ℚ)
    (cands : List NodePt) (b : ℕ) (hb : b < num_bins) :
    (binsFor num_bins bearingOf cands).getD b []
      = cands.filter
          (fun c => binIndex num_bins (bearingOf c) == (b : ℤ)) := by
  unfold binsFor
  have hlen : b < ((List.range num_bins).map (fun b : ℕ =>
      cands.filter
        (fun c => binIndex num_bins (bearingOf c) == (b : ℤ)))).length := by
    simpa using hb
  rw [List.getD_eq_getElem _ _ hlen, List.getElem_map, List.getElem_range]

/-- A non-empty list has a Python `max`. -/
theorem pyMax_of_ne_nil (key : NodePt → ℚ) (l : List NodePt) (h : l ≠ []) :
    ∃ t, pyMax key l = some t := by
  cases l with
  | nil => exact absurd rfl h
  | cons x xs => exact ⟨_, rfl⟩

/-- With a positive requested count, the dijkstra collection loop
returns the first `k` formatted targets in selection order. -/
theorem collectPaths_eq_take (trail_edges : List TrailEdge)
    (route : ℤ → List PgrRow) (k : ℕ) :
    ∀ (ts : List NodePt) (acc : List PathRec), acc.length < k →
      collectPaths trail_edges route k ts acc
        = (acc ++ ts.filterMap (routeFormatted trail_edges route)).take k := by
  intro ts
  induction ts with
  | nil =>
      intro acc hacc
      simp [collectPaths, List.take_of_length_le (le_of_lt hacc)]
  | cons t ts ih =>
      intro acc hacc
      rw [collectPaths_cons]
      have hsplit : acc ++ (t :: ts).filterMap (routeFormatted trail_edges route)
          = (acc ++ (routeFormatted trail_edges route t).toList)
            ++ ts.filterMap (routeFormatted trail_edges route) := by
        cases hg : routeFormatted trail_edges route t <;>
          simp [List.filterMap_cons, hg]
      by_cases hm : k ≤ (acc ++ (routeFormatted trail_edges route t).toList).length
      · rw [if_pos hm]
        have hlen : (acc ++ (routeFormatted trail_edges route t).toList).length
            = k := by
          have h1 : (routeFormatted trail_edges route t).toList.length ≤ 1 := by
            cases routeFormatted trail_edges route t <;> simp
          simp only [List.length_append] at hm ⊢
          omega
        rw [hsplit, List.take_append_of_le_length hm,
          List.take_of_length_le (le_of_eq hlen)]
      · rw [if_neg hm]
        push_neg at hm
        rw [ih _ hm, hsplit]

/-- C6: the diversity sampler uses exactly `max(8, k)` equal angular
bins; every candidate's bin index is in range and membership in a bin is
exactly the bin-index equation; each non-empty bin contributes exactly
its farthest candidate (by squared planar distance from the start node);
and with a positive `k` the result is the first `k` formatted shortest
paths over the selected targets in order, targets with empty
`pgr_dijkstra` results being skipped. -/
theorem c6_diversity_sampling (trail_edges : List TrailEdge)
    (start_geom : NodePt) (cands : List NodePt) (bearingOf : NodePt → ℚ)
    (route : ℤ → List PgrRow) (k : ℕ) (hk : 1 ≤ k)
    (hb : ∀ c ∈ cands, 0 ≤ bearingOf c ∧ bearingOf c < 360) :
    (binsFor (max 8 k) bearingOf cands).length = max 8 k
    ∧ (∀ c ∈ cands, 0 ≤ binIndex (max 8 k) (bearingOf c)
        ∧ binIndex (max 8 k) (bearingOf c) < ((max 8 k : ℕ) : ℤ))
    ∧ (∀ c ∈ cands, ∀ b : ℕ, b < max 8 k →
        (c ∈ (binsFor (max 8 k) bearingOf cands).getD b []
          ↔ binIndex (max 8 k) (bearingOf c) = (b : ℤ)))
    ∧ (∀ bin ∈ binsFor (max 8 k) bearingOf cands, bin ≠ [] →
        ∃ t, pyMax (sqDist start_geom) bin = some t ∧ t ∈ bin
          ∧ ∀ x ∈ bin, sqDist start_geom x ≤ sqDist start_geom t)
    ∧ selectedTargets (max 8 k) start_geom bearingOf cands
        = (binsFor (max 8 k) bearingOf cands).filterMap
            (pyMax (sqDist start_geom))
    ∧ (cands ≠ [] →
        findPathsFromNodeOptimized trail_edges start_geom cands bearingOf
            route k
          = ((selectedTargets (max 8 k) start_geom bearingOf cands).filterMap
              (routeFormatted trail_edges route)).take k) := by
  have hn : 0 < max 8 k := lt_of_lt_of_le (by norm_num) (le_max_left 8 k)
  refine ⟨by simp [binsFor], ?_, ?_, ?_, rfl, ?_⟩
  · intro c hc
    exact binIndex_range (max 8 k) (bearingOf c) hn (hb c hc).1 (hb c hc).2
  · intro c hc b hbn
    rw [binsFor_getD (max 8 k) bearingOf cands b hbn]
    simp [List.mem_filter, hc]
  · intro bin _ hbne
    obtain ⟨t, ht⟩ := pyMax_of_ne_nil (sqDist start_geom) bin hbne
    obtain ⟨hmem, hall⟩ := pyMax_spec (sqDist start_geom) bin t ht
    exact ⟨t, ht, hmem, hall⟩
  · intro hc
    unfold findPathsFromNodeOptimized
    rw [if_neg (by simpa [List.isEmpty_iff] using hc)]
    have h0 : ([] : List PathRec).length < k := by simpa using hk
    rw [collectPaths_eq_take trail_edges route k _ [] h0]
    rw [List.nil_append]

/-- Witness for `c6_diversity_sampling` at a concrete input. -/
theorem c6_diversity_sampling_witness :
    1 ≤ 1
      ∧ (∀ c ∈ [(⟨2, 1, 1⟩ : NodePt)],
          0 ≤ (fun (_ : NodePt) => (90 : ℚ)) c
            ∧ (fun (_ : NodePt) => (90 : ℚ)) c < 360)
      ∧ ((binsFor (max 8 1) (fun _ => 90) [(⟨2, 1, 1⟩ : NodePt)]).length
            = max 8 1
        ∧ (∀ c ∈ [(⟨2, 1, 1⟩ : NodePt)],
            0 ≤ binIndex (max 8 1) ((fun _ => (90 : ℚ)) c)
            ∧ binIndex (max 8 1) ((fun _ => (90 : ℚ)) c)
                < ((max 8 1 : ℕ) : ℤ))
        ∧ (∀ c ∈ [(⟨2, 1, 1⟩ : NodePt)], ∀ b : ℕ, b < max 8 1 →
            (c ∈ (binsFor (max 8 1) (fun _ => 90)
                [(⟨2, 1, 1⟩ : NodePt)]).getD b []
              ↔ binIndex (max 8 1) ((fun _ => (90 : ℚ)) c) = (b : ℤ)))
        ∧ (∀ bin ∈ binsFor (max 8 1) (fun _ => 90) [(⟨2, 1, 1⟩ : NodePt)],
            bin ≠ [] →
            ∃ t, pyMax (sqDist ⟨1, 0, 0⟩) bin = some t ∧ t ∈ bin
              ∧ ∀ x ∈ bin, sqDist ⟨1, 0, 0⟩ x ≤ sqDist ⟨1, 0, 0⟩ t)
        ∧ selectedTargets (max 8 1) ⟨1, 0, 0⟩ (fun _ => 90)
              [(⟨2, 1, 1⟩ : NodePt)]
            = (binsFor (max 8 1) (fun _ => 90)
                [(⟨2, 1, 1⟩ : NodePt)]).filterMap (pyMax (sqDist ⟨1, 0, 0⟩))
        ∧ (([(⟨2, 1, 1⟩ : NodePt)] : List NodePt) ≠ [] →
            findPathsFromNodeOptimized [] ⟨1, 0, 0⟩ [(⟨2, 1, 1⟩ : NodePt)]
                (fun _ => 90) (fun _ => []) 1
              = ((selectedTargets (max 8 1) ⟨1, 0, 0⟩ (fun _ => 90)
                  [(⟨2, 1, 1⟩ : NodePt)]).filterMap
                  (routeFormatted [] (fun _ => []))).take 1)) :=
  ⟨by decide, by decide,
    c6_diversity_sampling [] ⟨1, 0, 0⟩ [⟨2, 1, 1⟩] (fun _ => 90)
      (fun _ => []) 1 (by decide) (by decide)⟩

end Bus2Hike
